import Mathlib

/-!
Verification of the LogDNA logging backend (`log/logdna.go`) of the
go-common repository, as a shallow embedding in Lean 4.

The embedding translates the Go source directly:
* `payload` (the batch buffer) with its `Write`/`Flush`/`Size` operations;
* `line`, the log record;
* `client` and its `send` method, with the external world (current time,
  outcome of `http.Post`) passed in as an explicit environment and the
  emitted HTTP request and local diagnostics returned as data;
* `dnalog` and its `Log` method, with Go runtime panics
  (index out of range, failed type assertion) made explicit as `Except`
  errors, and Go `interface{}` values modelled by `GoVal`;
* `newDNALogger`, with `os.Getenv` and `getAddr` results passed in as an
  explicit environment (Go's `os.Getenv` returns `""` for an unset
  variable) and the process-global `globalClient` passed and returned
  explicitly.

Locks (`sync.Mutex`, `sync.RWMutex`) serialize the operations; the
embedding gives the sequential semantics of each critical section.
-/

namespace Logdna

/-- Go `interface{}` value as it matters to this code: a string (the only
type the `msg` assertion accepts), some other value that `json.Marshal`
can serialize (numbers, bools, ...), or a value `json.Marshal` rejects
(func, chan, ...). Each carries its `fmt.Sprintf` rendering. -/
inductive GoVal where
  | vstr (s : String)
  | vother (r : String)
  | vbad (r : String)
deriving DecidableEq, Repr

/-- Go `fmt.Sprintf peh v` rendering of a value (peh the percent-v verb). -/
def sprintf : GoVal → String
  | .vstr s => s
  | .vother r => r
  | .vbad r => r

/-- Whether `json.Marshal` accepts the value. -/
def serializable : GoVal → Bool
  | .vbad _ => false
  | _ => true

/-- Go `map[string]interface{}` modelled as an association list. -/
abbrev KvMap := List (String × GoVal)

/-- Go map assignment `kv[k] = v`: replace the binding if the key is
present, otherwise add it. -/
def kvInsert : KvMap → String → GoVal → KvMap
  | [], k, v => [(k, v)]
  | (k0, v0) :: rest, k, v =>
    if k0 = k then (k0, v) :: rest else (k0, v0) :: kvInsert rest k v

/-- The keys of a `KvMap`. -/
def kvKeys (kv : KvMap) : List String := kv.map Prod.fst

/-- Go map read `kv[k]`: the value bound to the key, if any. -/
def kvLookup : KvMap → String → Option GoVal
  | [], _ => none
  | (k0, v0) :: rest, k => if k0 = k then some v0 else kvLookup rest k

/-- `line` struct of logdna.go (one log record). `Env` is never set by
`Log`, so it keeps Go's zero value `""`. -/
structure Line where
  timestamp : Int
  line : String
  app : String
  level : String
  env : String
  meta : KvMap
deriving DecidableEq, Repr

/-- `maxNumLines` constant of logdna.go. -/
def maxNumLines : Nat := 100

/-- `logdnaBaseURL` constant of logdna.go. -/
def logdnaBaseURL : String := "https://logs.logdna.com/logs/ingest"

/-- `payload` struct of logdna.go: the batch buffer (the `sync.RWMutex`
field only serializes access and has no sequential content). -/
structure Payload where
  Lines : List Line
deriving DecidableEq, Repr

/-- `payload.Flush`: replace the record sequence with an empty one. -/
def Payload.Flush (_ : Payload) : Payload := ⟨[]⟩

/-- `payload.Write`: append the record, then report whether the new
length has reached `maxNumLines`. -/
def Payload.Write (p : Payload) (l : Line) : Payload × Bool :=
  (⟨p.Lines ++ [l]⟩, decide ((p.Lines ++ [l]).length ≥ maxNumLines))

/-- `payload.Size`: current number of buffered records. -/
def Payload.Size (p : Payload) : Nat := p.Lines.length

/-- Results of a sequence of `payload.Write` calls with no intervening
flush: the final buffer and the list of returned readiness flags. -/
def writeResults : Payload → List Line → Payload × List Bool
  | p, [] => (p, [])
  | p, l :: rest =>
    ((writeResults (p.Write l).1 rest).1,
      (p.Write l).2 :: (writeResults (p.Write l).1 rest).2)

/-- `client` struct of logdna.go (the `monitor` back-reference and the
mutexes carry no sequential state). -/
structure Client where
  apikey : String
  hostname : String
  mac : String
  ip : String
  tags : List String
  url : String
  payload : Payload
deriving DecidableEq, Repr

/-- The JSON document produced by `json.Marshal(c.payload)`: an object
whose only exported field is `lines` (the `mu` field is unexported and
not marshaled). -/
structure Body where
  lines : List Line
deriving DecidableEq, Repr

/-- Whether `json.Marshal` accepts every metadata value of a record. -/
def Line.metaSerializable (l : Line) : Bool :=
  l.meta.all fun p => serializable p.2

/-- `json.Marshal(c.payload)`: succeeds with the `lines` object unless
some metadata value is unserializable. -/
def marshalPayload (ls : List Line) : Option Body :=
  if ls.all Line.metaSerializable then some ⟨ls⟩ else none

/-- The outbound HTTP request built by `client.send`: endpoint URL,
userinfo credential (`apiurl.User = url.User(c.apikey)`), query
parameters in the order the code sets them (`url.Values.Encode` only
reorders them alphabetically), content type and JSON body. -/
structure HttpRequest where
  baseURL : String
  user : String
  query : List (String × String)
  contentType : String
  body : Body
deriving DecidableEq, Repr

/-- Local best-effort diagnostics printed by `client.send`. -/
inductive SendLog where
  | marshalError
  | transportError
  | remoteError
deriving DecidableEq, Repr

/-- External inputs of one `client.send` call: the current time
(`time.Now().UnixNano()`) and the outcome of `http.Post` (`none` for a
transport error, `some status` for a response). -/
structure SendEnv where
  nowNanos : Int
  postResult : Option Nat
deriving DecidableEq, Repr

/-- Observable outcome of one `client.send` call: the buffer afterwards,
the HTTP request performed (if any) and the local diagnostics. -/
structure SendResult where
  payload : Payload
  request : Option HttpRequest
  logs : List SendLog
deriving DecidableEq, Repr

/-- `client.send` of logdna.go. The `force` argument is never read by
the body. If the buffer is empty the call returns at once. Otherwise the
deferred `func() {c.payload.mu.Unlock(); c.payload.Flush()}` runs on
every later exit path, so the buffer is flushed whether marshaling
fails, the POST fails, the server rejects, or the POST succeeds. -/
def Client.send (c : Client) (env : SendEnv) (force : Bool) : SendResult :=
  if c.payload.Size = 0 then
    ⟨c.payload, none, []⟩
  else
    match marshalPayload c.payload.Lines with
    | none => ⟨c.payload.Flush, none, [.marshalError]⟩
    | some body =>
      let req : HttpRequest :=
        { baseURL := c.url
          user := c.apikey
          query := [("hostname", c.hostname), ("mac", c.mac), ("ip", c.ip),
                    ("now", toString (env.nowNanos / 1000000)),
                    ("tags", String.intercalate "," c.tags)]
          contentType := "application/json"
          body := body }
      match env.postResult with
      | none => ⟨c.payload.Flush, some req, [.transportError]⟩
      | some status =>
        if status ≥ 400 then ⟨c.payload.Flush, some req, [.remoteError]⟩
        else ⟨c.payload.Flush, some req, []⟩

/-- Go runtime panics that `dnalog.Log` can raise: `keyvals[i+1]` past
the end of the slice, and `keyvals[i+1].(string)` on a non-string. -/
inductive GoFault where
  | indexOutOfRange
  | typeAssertFailed
deriving DecidableEq, Repr

/-- The keyvals loop of `dnalog.Log` (lines 126-140 of logdna.go): walk
the slice with index `i`, rendering each element with `fmt.Sprintf`;
the renderings `msg` and `level` (at any position) take the following
element as message (string assertion) resp. severity (rendered); any
other element at an even index puts the following element into the
metadata map; the loop then continues at the next index (Go's `break`
only leaves the `switch`). -/
def procKV : Nat → List GoVal → String → String → KvMap →
    Except GoFault (String × String × KvMap)
  | _, [], msg, lvl, kv => .ok (msg, lvl, kv)
  | i, v :: rest, msg, lvl, kv =>
    if sprintf v = "msg" then
      match rest with
      | [] => .error .indexOutOfRange
      | nv :: _ =>
        match nv with
        | .vstr s => procKV (i + 1) rest s lvl kv
        | _ => .error .typeAssertFailed
    else if sprintf v = "level" then
      match rest with
      | [] => .error .indexOutOfRange
      | nv :: _ => procKV (i + 1) rest msg (sprintf nv) kv
    else if i % 2 = 0 then
      match rest with
      | [] => .error .indexOutOfRange
      | nv :: _ => procKV (i + 1) rest msg lvl (kvInsert kv (sprintf v) nv)
    else
      procKV (i + 1) rest msg lvl kv

/-- `dnalog` struct of logdna.go: the next link of the chain (an
interface value, possibly nil) and the shared client (possibly nil). -/
structure Dnalog where
  next : Bool
  client : Option Client
deriving DecidableEq, Repr

/-- Observable outcome of one `dnalog.Log` call: the adapter state
afterwards (its client's buffer may have grown), the record written to
the buffer (if any), whether an asynchronous `send` was dispatched, and
the keyvals forwarded to the next logger (if any). -/
structure LogResult where
  logger : Dnalog
  written : Option Line
  dispatched : Bool
  forwarded : Option (List GoVal)
deriving DecidableEq, Repr

/-- `dnalog.Log` of logdna.go. With a nil client the record processing
is skipped entirely; otherwise the keyvals loop builds message, level
and metadata, a `line` stamped with the current time in milliseconds and
`App` set to the client hostname is written to the buffer, and a
delivery is dispatched when the write reports readiness. A Go panic in
the loop propagates to the caller and the next logger is not called. -/
def Dnalog.Log (lg : Dnalog) (keyvals : List GoVal) (nowNanos : Int) :
    Except GoFault LogResult :=
  match lg.client with
  | none => .ok ⟨lg, none, false, if lg.next then some keyvals else none⟩
  | some c =>
    match procKV 0 keyvals "" "info" [] with
    | .error f => .error f
    | .ok (msg, lvl, kv) =>
      let ln : Line :=
        ⟨nowNanos / 1000000, msg, c.hostname, lvl, "", kv⟩
      let res := c.payload.Write ln
      .ok ⟨⟨lg.next, some { c with payload := res.1 }⟩, some ln, res.2,
        if lg.next then some keyvals else none⟩

/-- Environment of `newDNALogger`: the four `os.Getenv` reads (`""` when
the variable is unset, exactly as in Go) and the `getAddr` discovery
result (first non-loopback IPv4 address and its interface's hardware
address, `("", "")` when none is found). -/
structure GoEnv where
  ppLogKey : String
  ppHostname : String
  ppLogTags : String
  ppLogUrl : String
  discoveredIp : String
  discoveredMac : String
deriving DecidableEq, Repr

/-- Observable outcome of one `newDNALogger` call: the adapter returned,
the process-global client slot afterwards, and whether a monitor
goroutine was started (`go m.run()`). -/
structure RegistryResult where
  adapter : Dnalog
  globalClient : Option Client
  monitorStarted : Bool
deriving DecidableEq, Repr

/-- `newDNALogger` of logdna.go, with the process-global `globalClient`
passed and returned explicitly. The local `c` starts nil; the code only
assigns `c = globalClient` inside the `globalClient == nil` branch, so
when a client already exists the adapter is returned with `c` still nil. -/
def newDNALogger (env : GoEnv) (next : Bool) (globalClient : Option Client) :
    RegistryResult :=
  if env.ppLogKey = "" then
    ⟨⟨next, none⟩, globalClient, false⟩
  else
    match globalClient with
    | some g => ⟨⟨next, none⟩, some g, false⟩
    | none =>
      let hostname :=
        if env.ppHostname = "" then "hostname.not.provided" else env.ppHostname
      let tags :=
        if env.ppLogTags = "" then [] else env.ppLogTags.splitOn ","
      let logurl :=
        if env.ppLogUrl = "" then logdnaBaseURL else env.ppLogUrl
      let c : Client :=
        ⟨env.ppLogKey, hostname, env.discoveredMac, env.discoveredIp,
          tags, logurl, ⟨[]⟩⟩
      ⟨⟨next, some c⟩, some c, true⟩

/-- The message the keyvals loop ends with, read off the slice directly:
the element after the last occurrence of a `msg`-rendering element
(`none` when no such occurrence consumes a following element). -/
def specMsg : List GoVal → Option String
  | [] => none
  | _ :: [] => none
  | v :: nv :: rest =>
    match specMsg (nv :: rest) with
    | some s => some s
    | none => if sprintf v = "msg" then some (sprintf nv) else none

/-- The severity the keyvals loop ends with, read off the slice
directly: the rendering of the element after the last occurrence of a
`level`-rendering element. -/
def specLvl : List GoVal → Option String
  | [] => none
  | _ :: [] => none
  | v :: nv :: rest =>
    match specLvl (nv :: rest) with
    | some s => some s
    | none => if sprintf v = "level" then some (sprintf nv) else none

/-! Concrete fixtures used by counterexamples and witnesses. -/

/-- A plain log record. -/
def lnPlain : Line := ⟨0, "m", "h", "info", "", []⟩

/-- A record whose metadata holds a value `json.Marshal` rejects. -/
def lnBad : Line := ⟨0, "m", "h", "info", "", [("f", GoVal.vbad "chan")]⟩

/-- A client whose buffer holds one unserializable record. -/
def cBad : Client :=
  ⟨"k1", "host1", "mac1", "ip1", ["t1"], logdnaBaseURL, ⟨[lnBad]⟩⟩

/-- A client whose buffer holds one serializable record. -/
def cOk : Client :=
  ⟨"k1", "host1", "mac1", "ip1", ["t1", "t2"], logdnaBaseURL, ⟨[lnPlain]⟩⟩

/-- A client with an empty buffer. -/
def cEmpty : Client :=
  ⟨"k1", "host1", "mac1", "ip1", ["t1"], logdnaBaseURL, ⟨[]⟩⟩

/-- A send environment whose POST fails at the transport layer. -/
def envNoPost : SendEnv := ⟨1234567890, none⟩

/-- An adapter wired to a client with an empty buffer. -/
def dlEx : Dnalog := ⟨true, some cEmpty⟩

/-- Keyvals where the string `msg` occurs only at an odd position. -/
def kvsEx : List GoVal :=
  [GoVal.vstr "k", GoVal.vstr "msg", GoVal.vstr "v", GoVal.vstr "w"]

/-- The record `Log` writes for `kvsEx` at time 0. -/
def lnEx8 : Line :=
  ⟨0, "v", "host1", "info", "",
    [("k", GoVal.vstr "msg"), ("v", GoVal.vstr "w")]⟩

/-- The full `Log` outcome for `kvsEx` on `dlEx` at time 0. -/
def resEx8 : LogResult :=
  ⟨⟨true, some ⟨"k1", "host1", "mac1", "ip1", ["t1"], logdnaBaseURL,
      ⟨[lnEx8]⟩⟩⟩, some lnEx8, false, some kvsEx⟩

/-- An environment with the API key variable set and an existing client. -/
def envWithKey : GoEnv := ⟨"k1", "host1", "t1,t2", "", "ip1", "mac1"⟩

/-- An environment with the API key variable unset. -/
def envNoKey : GoEnv := ⟨"", "host1", "t1,t2", "", "ip1", "mac1"⟩

/-! Theorems. -/

/-- Closed form of a flush-free write sequence: the records accumulate in
order and the k-th write (0-based) reports readiness iff the length it
produces, `p.Lines.length + k + 1`, has reached `maxNumLines`. -/
theorem writeResults_formula (ls : List Line) : ∀ p : Payload,
    writeResults p ls =
      (⟨p.Lines ++ ls⟩,
        (List.range ls.length).map
          fun k => decide (p.Lines.length + k + 1 ≥ maxNumLines)) := by
  induction ls with
  | nil => intro p; simp [writeResults]
  | cons l rest ih =>
    intro p
    have h2 := ih ⟨p.Lines ++ [l]⟩
    simp only [writeResults, Payload.Write]
    rw [h2]
    refine congrArg₂ Prod.mk ?_ ?_
    · simp
    · rw [List.length_cons, List.range_succ_eq_map, List.map_cons,
        List.map_map]
      refine congrArg₂ List.cons ?_ ?_
      · simp [List.length_append]
      · refine List.map_congr_left ?_
        intro k _
        simp only [Function.comp_apply, List.length_append,
          List.length_cons, List.length_nil]
        exact decide_eq_decide.mpr (by omega)

/-- C5: `payload.Write` adds the record at the end of the sequence and
returns true if and only if the new length is at least the capacity
threshold of 100. -/
theorem c5_write_appends_and_thresholds (p : Payload) (l : Line) :
    ((p.Write l).1.Lines = p.Lines ++ [l])
    ∧ ((p.Write l).2 = true ↔ p.Lines.length + 1 ≥ maxNumLines) := by
  constructor
  · rfl
  · simp [Payload.Write, List.length_append]

/-- C3 counterexample: after 100 appends with no flush (exactly one of
which reported readiness), the 101st append also returns
`readyToFlush = true`, although the buffer was never flushed — the
check is `new length ≥ 100`, not `= 100`. -/
theorem c3_cex_101st_append_retriggers :
    (writeResults ⟨[]⟩ (List.replicate 100 lnPlain)).2.count true = 1
    ∧ ((writeResults ⟨[]⟩ (List.replicate 100 lnPlain)).1.Write lnPlain).2
        = true := by
  constructor
  · decide
  · decide

/-- C3 amended: in a flush-free sequence of appends starting from an
empty buffer, the k-th append (0-based) returns `readyToFlush = true`
iff it brings the running count `k + 1` to at least 100; in particular
appending 150 records with no intervening flush signals readiness 51
times (on appends 100 through 150), not exactly once, and all 150
records are in the buffer until a flush happens. -/
theorem c3_amended_every_append_at_threshold_signals :
    (∀ ls : List Line,
      writeResults ⟨[]⟩ ls =
        (⟨ls⟩, (List.range ls.length).map
          fun k => decide (k + 1 ≥ maxNumLines)))
    ∧ ∀ l : Line,
        (writeResults ⟨[]⟩ (List.replicate 150 l)).2.count true = 51
        ∧ (writeResults ⟨[]⟩ (List.replicate 150 l)).1.Lines.length = 150 := by
  constructor
  · intro ls
    rw [writeResults_formula]
    simp
  · intro l
    rw [writeResults_formula]
    refine ⟨?_, by simp⟩
    simp only [List.length_nil, List.length_replicate, Nat.zero_add]
    decide

/-- C10: the `force` argument of `client.send` is never consulted —
`send(true)` and `send(false)` are the same function of the state — and
on an empty buffer `send` is an immediate no-op: no request, no
diagnostics, buffer untouched. -/
theorem c10_force_unused (c : Client) (env : SendEnv) (f1 f2 : Bool) :
    c.send env f1 = c.send env f2
    ∧ (c.payload.Lines = [] → c.send env f1 = ⟨c.payload, none, []⟩) := by
  constructor
  · rfl
  · intro h
    simp [Client.send, Payload.Size, h]

/-- C10 witness: concrete empty-buffer client. -/
theorem c10_witness :
    Client.send cEmpty envNoPost true = Client.send cEmpty envNoPost false
    ∧ Client.send cEmpty envNoPost true = ⟨cEmpty.payload, none, []⟩ :=
  ⟨(c10_force_unused cEmpty envNoPost true false).1,
    (c10_force_unused cEmpty envNoPost true false).2 rfl⟩

/-- C2 counterexample: a non-empty buffer whose serialization fails.
The deferred unlock-and-flush of `send` runs on the early `return` after
`json.Marshal` fails, so delivery is aborted (no request) but the buffer
ends up EMPTY — the records are not retained, contrary to the claim. -/
theorem c2_cex_marshal_failure_still_flushes :
    cBad.payload.Lines ≠ []
    ∧ marshalPayload cBad.payload.Lines = none
    ∧ (Client.send cBad envNoPost false).request = none
    ∧ (Client.send cBad envNoPost false).payload = ⟨[]⟩ := by
  refine ⟨by decide, by decide, rfl, rfl⟩

/-- C2 amended: when `send` runs on a non-empty buffer and serialization
of the payload fails, delivery is aborted for that batch (no HTTP
request) and the failure is logged locally, but the buffer IS flushed
all the same — the records are dropped, exactly as in the other failure
cases. -/
theorem c2_amended_flush_on_marshal_failure (c : Client) (env : SendEnv)
    (force : Bool) (h1 : c.payload.Lines ≠ [])
    (h2 : marshalPayload c.payload.Lines = none) :
    c.send env force = ⟨⟨[]⟩, none, [SendLog.marshalError]⟩ := by
  have hs : c.payload.Size ≠ 0 := by
    simpa [Payload.Size, List.length_eq_zero] using h1
  simp [Client.send, hs, h2, Payload.Flush]

/-- C2 amended witness: concrete client with an unserializable record. -/
theorem c2_amended_witness :
    Client.send cBad envNoPost false = ⟨⟨[]⟩, none, [SendLog.marshalError]⟩ :=
  c2_amended_flush_on_marshal_failure cBad envNoPost false
    (by decide) (by decide)

/-- C4: when `send` runs on a non-empty buffer, serialization succeeds
and the HTTP POST fails at the transport layer, the buffer is flushed
anyway: afterwards it is empty, a request was attempted, and the failure
was only logged locally — the records are dropped, never re-buffered. -/
theorem c4_transport_failure_flushes (c : Client) (env : SendEnv)
    (force : Bool) (b : Body) (h1 : c.payload.Lines ≠ [])
    (h2 : marshalPayload c.payload.Lines = some b)
    (h3 : env.postResult = none) :
    (c.send env force).payload = ⟨[]⟩
    ∧ (c.send env force).request.isSome = true
    ∧ (c.send env force).logs = [SendLog.transportError] := by
  have hs : c.payload.Size ≠ 0 := by
    simpa [Payload.Size, List.length_eq_zero] using h1
  simp [Client.send, hs, h2, h3, Payload.Flush]

/-- C4 witness: concrete client whose POST fails at the transport layer. -/
theorem c4_witness :
    (Client.send cOk envNoPost false).payload = ⟨[]⟩
    ∧ (Client.send cOk envNoPost false).request.isSome = true
    ∧ (Client.send cOk envNoPost false).logs = [SendLog.transportError] :=
  c4_transport_failure_flushes cOk envNoPost false ⟨[lnPlain]⟩
    (by decide) (by decide) rfl

/-- C7: every delivery of a non-empty buffer builds the outbound request
with the API key as the userinfo component of the endpoint URL, the
query parameters hostname, mac, ip, now (current time in epoch
milliseconds) and tags (the configured tags joined with commas), and a
JSON body that is the object whose `lines` field is exactly the array of
buffered records. -/
theorem c7_request_shape (c : Client) (env : SendEnv) (force : Bool)
    (b : Body) (h1 : c.payload.Lines ≠ [])
    (h2 : marshalPayload c.payload.Lines = some b) :
    (c.send env force).request = some
      { baseURL := c.url
        user := c.apikey
        query := [("hostname", c.hostname), ("mac", c.mac), ("ip", c.ip),
                  ("now", toString (env.nowNanos / 1000000)),
                  ("tags", String.intercalate "," c.tags)]
        contentType := "application/json"
        body := b }
    ∧ b.lines = c.payload.Lines := by
  have hs : c.payload.Size ≠ 0 := by
    simpa [Payload.Size, List.length_eq_zero] using h1
  have hb : b.lines = c.payload.Lines := by
    unfold marshalPayload at h2
    split at h2
    · rw [← Option.some.inj h2]
    · exact absurd h2 (by simp)
  refine ⟨?_, hb⟩
  cases hpost : env.postResult with
  | none => simp [Client.send, hs, h2, hpost]
  | some status =>
    by_cases h4 : status ≥ 400
    · simp [Client.send, hs, h2, hpost, h4]
    · simp [Client.send, hs, h2, hpost, h4]

/-- C7 witness: concrete one-record client. -/
theorem c7_witness :
    (Client.send cOk envNoPost false).request = some
      { baseURL := cOk.url
        user := cOk.apikey
        query := [("hostname", cOk.hostname), ("mac", cOk.mac),
                  ("ip", cOk.ip),
                  ("now", toString (envNoPost.nowNanos / 1000000)),
                  ("tags", String.intercalate "," cOk.tags)]
        contentType := "application/json"
        body := ⟨[lnPlain]⟩ }
    ∧ (⟨[lnPlain]⟩ : Body).lines = cOk.payload.Lines :=
  c7_request_shape cOk envNoPost false ⟨[lnPlain]⟩ (by decide) (by decide)

/-- C1: when the API key environment variable is set and the
process-wide client already exists, `newDNALogger` leaves its local `c`
nil — the `c = globalClient` assignment only happens in the
construction branch — so the returned adapter holds NO client (while
the global slot keeps the existing one). Every adapter constructed
after the first is left without a client, contradicting the documented
singleton-sharing intent. -/
theorem c1_registry_returns_clientless_adapter (env : GoEnv) (next : Bool)
    (c0 : Client) (h : env.ppLogKey ≠ "") :
    (newDNALogger env next (some c0)).adapter.client = none
    ∧ (newDNALogger env next (some c0)).globalClient = some c0 := by
  simp [newDNALogger, h]

/-- C1 witness: concrete second constructor call with the key set. -/
theorem c1_witness :
    (newDNALogger envWithKey true (some cEmpty)).adapter.client = none
    ∧ (newDNALogger envWithKey true (some cEmpty)).globalClient
        = some cEmpty :=
  c1_registry_returns_clientless_adapter envWithKey true cEmpty (by decide)

/-- C6: with the API key variable unset, `newDNALogger` still returns an
adapter (absence of configuration is not an error), touches neither the
global client slot nor a monitor, and the adapter's client is nil, so
`Log` performs no buffering, writes no record, dispatches no delivery,
raises no fault, and still forwards to the next logger. -/
theorem c6_no_key_noop (env : GoEnv) (next : Bool) (g : Option Client)
    (h : env.ppLogKey = "") :
    (newDNALogger env next g).adapter = ⟨next, none⟩
    ∧ (newDNALogger env next g).globalClient = g
    ∧ (newDNALogger env next g).monitorStarted = false
    ∧ ∀ (kvs : List GoVal) (nowNanos : Int),
        Dnalog.Log ⟨next, none⟩ kvs nowNanos =
          .ok ⟨⟨next, none⟩, none, false,
            if next then some kvs else none⟩ := by
  refine ⟨?_, ?_, ?_, ?_⟩
  · simp [newDNALogger, h]
  · simp [newDNALogger, h]
  · simp [newDNALogger, h]
  · intro kvs nowNanos
    rfl

/-- C6 witness: concrete keyless environment and a concrete Log call. -/
theorem c6_witness :
    (newDNALogger envNoKey true none).adapter = ⟨true, none⟩
    ∧ Dnalog.Log ⟨true, none⟩ [GoVal.vstr "msg"] 0 =
        .ok ⟨⟨true, none⟩, none, false, some [GoVal.vstr "msg"]⟩ :=
  ⟨(c6_no_key_noop envNoKey true none rfl).1,
    (c6_no_key_noop envNoKey true none rfl).2.2.2 [GoVal.vstr "msg"] 0⟩

/-- C9: `dnalog.Log` does NOT return normally on every key/value
sequence. With an enabled client, `Log` on the single element `msg`
evaluates `keyvals[i+1]` past the end of the slice (index-out-of-range
panic), and `Log` on `msg` followed by a non-string fails the
`keyvals[i+1].(string)` type assertion — both Go runtime panics
propagate to the producing caller, and the next logger is never
reached. -/
theorem c9_log_panics_on_malformed_keyvals :
    Dnalog.Log dlEx [GoVal.vstr "msg"] 0 = .error GoFault.indexOutOfRange
    ∧ Dnalog.Log dlEx [GoVal.vstr "msg", GoVal.vother "42"] 0 =
        .error GoFault.typeAssertFailed :=
  ⟨rfl, rfl⟩

/-- Rendering a string value returns the string itself. -/
theorem sprintf_vstr (s : String) : sprintf (GoVal.vstr s) = s := rfl

/-- The message the loop returns is the one `specMsg` reads off the
slice, defaulting to the accumulator: a `msg`-rendering element at ANY
index (even or odd) overwrites the message with the following element. -/
theorem procKV_msg (l : List GoVal) : ∀ i msg lvl kv r,
    procKV i l msg lvl kv = .ok r → r.1 = (specMsg l).getD msg := by
  induction l with
  | nil =>
    intro i msg lvl kv r h
    rw [procKV] at h
    injection h with h
    subst h
    simp [specMsg]
  | cons v rest ih =>
    intro i msg lvl kv r h
    by_cases h1 : sprintf v = "msg"
    · rw [procKV.eq_def] at h; simp only [] at h; rw [if_pos h1] at h
      cases rest with
      | nil => simp at h
      | cons nv t =>
        cases nv with
        | vstr s =>
          have hr := ih (i + 1) s lvl kv r h
          rw [hr]
          cases hs : specMsg (GoVal.vstr s :: t) with
          | none => simp [specMsg, hs, h1, sprintf_vstr]
          | some s2 => simp [specMsg, hs]
        | vother rr => simp at h
        | vbad rr => simp at h
    · by_cases h2 : sprintf v = "level"
      · rw [procKV.eq_def] at h; simp only [] at h; rw [if_neg h1, if_pos h2] at h
        cases rest with
        | nil => simp at h
        | cons nv t =>
          have hr := ih (i + 1) msg (sprintf nv) kv r h
          rw [hr]
          cases hs : specMsg (nv :: t) with
          | none => simp [specMsg, hs, h1]
          | some s2 => simp [specMsg, hs]
      · by_cases h3 : i % 2 = 0
        · rw [procKV.eq_def] at h; simp only [] at h; rw [if_neg h1, if_neg h2, if_pos h3] at h
          cases rest with
          | nil => simp at h
          | cons nv t =>
            have hr := ih (i + 1) msg lvl (kvInsert kv (sprintf v) nv) r h
            rw [hr]
            cases hs : specMsg (nv :: t) with
            | none => simp [specMsg, hs, h1]
            | some s2 => simp [specMsg, hs]
        · rw [procKV.eq_def] at h; simp only [] at h; rw [if_neg h1, if_neg h2, if_neg h3] at h
          cases rest with
          | nil =>
            rw [procKV] at h
            injection h with h
            subst h
            simp [specMsg]
          | cons nv t =>
            have hr := ih (i + 1) msg lvl kv r h
            rw [hr]
            cases hs : specMsg (nv :: t) with
            | none => simp [specMsg, hs, h1]
            | some s2 => simp [specMsg, hs]

/-- The severity the loop returns is the one `specLvl` reads off the
slice, defaulting to the accumulator: a `level`-rendering element at ANY
index overwrites the severity with the rendering of the following
element. -/
theorem procKV_lvl (l : List GoVal) : ∀ i msg lvl kv r,
    procKV i l msg lvl kv = .ok r → r.2.1 = (specLvl l).getD lvl := by
  induction l with
  | nil =>
    intro i msg lvl kv r h
    rw [procKV] at h
    injection h with h
    subst h
    simp [specLvl]
  | cons v rest ih =>
    intro i msg lvl kv r h
    by_cases h1 : sprintf v = "msg"
    · rw [procKV.eq_def] at h; simp only [] at h; rw [if_pos h1] at h
      cases rest with
      | nil => simp at h
      | cons nv t =>
        cases nv with
        | vstr s =>
          have hr := ih (i + 1) s lvl kv r h
          rw [hr]
          cases hs : specLvl (GoVal.vstr s :: t) with
          | none => simp [specLvl, hs, h1]
          | some s2 => simp [specLvl, hs]
        | vother rr => simp at h
        | vbad rr => simp at h
    · by_cases h2 : sprintf v = "level"
      · rw [procKV.eq_def] at h; simp only [] at h; rw [if_neg h1, if_pos h2] at h
        cases rest with
        | nil => simp at h
        | cons nv t =>
          have hr := ih (i + 1) msg (sprintf nv) kv r h
          rw [hr]
          cases hs : specLvl (nv :: t) with
          | none => simp [specLvl, hs, h2]
          | some s2 => simp [specLvl, hs]
      · by_cases h3 : i % 2 = 0
        · rw [procKV.eq_def] at h; simp only [] at h; rw [if_neg h1, if_neg h2, if_pos h3] at h
          cases rest with
          | nil => simp at h
          | cons nv t =>
            have hr := ih (i + 1) msg lvl (kvInsert kv (sprintf v) nv) r h
            rw [hr]
            cases hs : specLvl (nv :: t) with
            | none => simp [specLvl, hs, h2]
            | some s2 => simp [specLvl, hs]
        · rw [procKV.eq_def] at h; simp only [] at h; rw [if_neg h1, if_neg h2, if_neg h3] at h
          cases rest with
          | nil =>
            rw [procKV] at h
            injection h with h
            subst h
            simp [specLvl]
          | cons nv t =>
            have hr := ih (i + 1) msg lvl kv r h
            rw [hr]
            cases hs : specLvl (nv :: t) with
            | none => simp [specLvl, hs, h2]
            | some s2 => simp [specLvl, hs]

/-- Go map assignment puts the assigned key among the keys. -/
theorem kvKeys_kvInsert_self (kv : KvMap) (k : String) (v : GoVal) :
    k ∈ kvKeys (kvInsert kv k v) := by
  induction kv with
  | nil => simp [kvInsert, kvKeys]
  | cons p rest ih =>
    obtain ⟨k0, v0⟩ := p
    by_cases h : k0 = k
    · simp [kvInsert, h, kvKeys]
    · simp only [kvInsert, if_neg h, kvKeys, List.map_cons, List.mem_cons]
      exact Or.inr ih

/-- Go map assignment never removes a key. -/
theorem kvKeys_kvInsert_mono (kv : KvMap) (k : String) (v : GoVal)
    (k0 : String) : k0 ∈ kvKeys kv → k0 ∈ kvKeys (kvInsert kv k v) := by
  induction kv with
  | nil => intro h; simp [kvKeys] at h
  | cons p rest ih =>
    obtain ⟨k1, v1⟩ := p
    intro h
    by_cases hk : k1 = k
    · simpa [kvInsert, hk, kvKeys] using h
    · simp only [kvKeys, List.map_cons, List.mem_cons] at h
      rcases h with h | h
      · simp [kvInsert, hk, kvKeys, h]
      · simp only [kvInsert, if_neg hk, kvKeys, List.map_cons, List.mem_cons]
        exact Or.inr (ih h)

/-- The keyvals loop only ever adds metadata keys: every key of the
accumulator map is a key of the final map. -/
theorem procKV_keys_mono (l : List GoVal) : ∀ i msg lvl kv r,
    procKV i l msg lvl kv = .ok r →
    ∀ k, k ∈ kvKeys kv → k ∈ kvKeys r.2.2 := by
  induction l with
  | nil =>
    intro i msg lvl kv r h k hk
    rw [procKV] at h
    injection h with h
    subst h
    exact hk
  | cons v rest ih =>
    intro i msg lvl kv r h k hk
    by_cases h1 : sprintf v = "msg"
    · rw [procKV.eq_def] at h; simp only [] at h; rw [if_pos h1] at h
      cases rest with
      | nil => simp at h
      | cons nv t =>
        cases nv with
        | vstr s => exact ih (i + 1) s lvl kv r h k hk
        | vother rr => simp at h
        | vbad rr => simp at h
    · by_cases h2 : sprintf v = "level"
      · rw [procKV.eq_def] at h; simp only [] at h; rw [if_neg h1, if_pos h2] at h
        cases rest with
        | nil => simp at h
        | cons nv t => exact ih (i + 1) msg (sprintf nv) kv r h k hk
      · by_cases h3 : i % 2 = 0
        · rw [procKV.eq_def] at h; simp only [] at h; rw [if_neg h1, if_neg h2, if_pos h3] at h
          cases rest with
          | nil => simp at h
          | cons nv t =>
            exact ih (i + 1) msg lvl (kvInsert kv (sprintf v) nv) r h k
              (kvKeys_kvInsert_mono kv (sprintf v) nv k hk)
        · rw [procKV.eq_def] at h; simp only [] at h; rw [if_neg h1, if_neg h2, if_neg h3] at h
          cases rest with
          | nil =>
            rw [procKV] at h
            injection h with h
            subst h
            exact hk
          | cons nv t => exact ih (i + 1) msg lvl kv r h k hk

/-- Every even-index element whose rendering is neither `msg` nor
`level` (and which is not the last element) ends up as a key of the
metadata map the loop returns. -/
theorem procKV_keys_mem (l : List GoVal) : ∀ i msg lvl kv r,
    procKV i l msg lvl kv = .ok r →
    ∀ (j : Nat) (hj : j + 1 < l.length), (i + j) % 2 = 0 →
      sprintf (l.get ⟨j, Nat.lt_of_succ_lt hj⟩) ≠ "msg" →
      sprintf (l.get ⟨j, Nat.lt_of_succ_lt hj⟩) ≠ "level" →
      sprintf (l.get ⟨j, Nat.lt_of_succ_lt hj⟩) ∈ kvKeys r.2.2 := by
  induction l with
  | nil =>
    intro i msg lvl kv r h j hj
    simp at hj
  | cons v rest ih =>
    intro i msg lvl kv r h j hj hpar hm hl
    cases j with
    | zero =>
      have hi : i % 2 = 0 := by omega
      cases rest with
      | nil => simp at hj
      | cons nv t =>
        have hm0 : sprintf v ≠ "msg" := hm
        have hl0 : sprintf v ≠ "level" := hl
        rw [procKV.eq_def] at h; simp only [] at h
        rw [if_neg hm0, if_neg hl0, if_pos hi] at h
        exact procKV_keys_mono (nv :: t) (i + 1) msg lvl
          (kvInsert kv (sprintf v) nv) r h (sprintf v)
          (kvKeys_kvInsert_self kv (sprintf v) nv)
    | succ j =>
      have hj2 : j + 1 < rest.length := by simpa using hj
      have hpar2 : ((i + 1) + j) % 2 = 0 := by omega
      by_cases h1 : sprintf v = "msg"
      · rw [procKV.eq_def] at h; simp only [] at h; rw [if_pos h1] at h
        cases rest with
        | nil => simp at hj2
        | cons nv t =>
          cases nv with
          | vstr s => exact ih (i + 1) s lvl kv r h j hj2 hpar2 hm hl
          | vother rr => simp at h
          | vbad rr => simp at h
      · by_cases h2 : sprintf v = "level"
        · rw [procKV.eq_def] at h; simp only [] at h; rw [if_neg h1, if_pos h2] at h
          cases rest with
          | nil => simp at hj2
          | cons nv t =>
            exact ih (i + 1) msg (sprintf nv) kv r h j hj2 hpar2 hm hl
        · by_cases h3 : i % 2 = 0
          · rw [procKV.eq_def] at h; simp only [] at h; rw [if_neg h1, if_neg h2, if_pos h3] at h
            cases rest with
            | nil => simp at hj2
            | cons nv t =>
              exact ih (i + 1) msg lvl (kvInsert kv (sprintf v) nv) r h
                j hj2 hpar2 hm hl
          · rw [procKV.eq_def] at h; simp only [] at h; rw [if_neg h1, if_neg h2, if_neg h3] at h
            cases rest with
            | nil => simp at hj2
            | cons nv t => exact ih (i + 1) msg lvl kv r h j hj2 hpar2 hm hl

/-- Go map assignment binds the assigned key to the assigned value. -/
theorem kvLookup_kvInsert_self (kv : KvMap) (k : String) (v : GoVal) :
    kvLookup (kvInsert kv k v) k = some v := by
  induction kv with
  | nil => simp [kvInsert, kvLookup]
  | cons p rest ih =>
    obtain ⟨k0, v0⟩ := p
    by_cases h : k0 = k
    · simp [kvInsert, kvLookup, h]
    · simp [kvInsert, kvLookup, h, ih]

/-- Go map assignment leaves the binding of every other key unchanged. -/
theorem kvLookup_kvInsert_other (kv : KvMap) (k : String) (v : GoVal)
    (k2 : String) (hne : k ≠ k2) :
    kvLookup (kvInsert kv k v) k2 = kvLookup kv k2 := by
  induction kv with
  | nil => simp [kvInsert, kvLookup, hne]
  | cons p rest ih =>
    obtain ⟨k0, v0⟩ := p
    by_cases h : k0 = k
    · subst h
      simp [kvInsert, kvLookup, hne]
    · simp [kvInsert, kvLookup, h, ih]

/-- If no even-index non-reserved element of the remaining slice renders
to the key `k`, the loop leaves the metadata binding of `k` unchanged. -/
theorem procKV_lookup_preserved (l : List GoVal) : ∀ i msg lvl kv r,
    procKV i l msg lvl kv = .ok r → ∀ k : String,
    (∀ (j2 : Nat) (hj2 : j2 < l.length), (i + j2) % 2 = 0 →
      sprintf (l.get ⟨j2, hj2⟩) ≠ "msg" →
      sprintf (l.get ⟨j2, hj2⟩) ≠ "level" →
      sprintf (l.get ⟨j2, hj2⟩) ≠ k) →
    kvLookup r.2.2 k = kvLookup kv k := by
  induction l with
  | nil =>
    intro i msg lvl kv r h k _
    rw [procKV] at h
    injection h with h
    subst h
    rfl
  | cons v rest ih =>
    intro i msg lvl kv r h k hnone
    have hshift : ∀ (j2 : Nat) (hx : j2 < rest.length),
        ((i + 1) + j2) % 2 = 0 →
        sprintf (rest.get ⟨j2, hx⟩) ≠ "msg" →
        sprintf (rest.get ⟨j2, hx⟩) ≠ "level" →
        sprintf (rest.get ⟨j2, hx⟩) ≠ k := by
      intro j2 hx hp2 hm2 hl2
      exact hnone (j2 + 1) (by simpa using hx) (by omega) hm2 hl2
    by_cases h1 : sprintf v = "msg"
    · rw [procKV.eq_def] at h; simp only [] at h; rw [if_pos h1] at h
      cases rest with
      | nil => simp at h
      | cons nv t =>
        cases nv with
        | vstr s => exact ih (i + 1) s lvl kv r h k hshift
        | vother rr => simp at h
        | vbad rr => simp at h
    · by_cases h2 : sprintf v = "level"
      · rw [procKV.eq_def] at h; simp only [] at h; rw [if_neg h1, if_pos h2] at h
        cases rest with
        | nil => simp at h
        | cons nv t => exact ih (i + 1) msg (sprintf nv) kv r h k hshift
      · by_cases h3 : i % 2 = 0
        · rw [procKV.eq_def] at h; simp only [] at h
          rw [if_neg h1, if_neg h2, if_pos h3] at h
          cases rest with
          | nil => simp at h
          | cons nv t =>
            have hk : sprintf v ≠ k := hnone 0 (by simp) (by omega) h1 h2
            have hrec := ih (i + 1) msg lvl (kvInsert kv (sprintf v) nv) r
              h k hshift
            rw [hrec, kvLookup_kvInsert_other kv (sprintf v) nv k hk]
        · rw [procKV.eq_def] at h; simp only [] at h
          rw [if_neg h1, if_neg h2, if_neg h3] at h
          cases rest with
          | nil =>
            rw [procKV] at h
            injection h with h
            subst h
            rfl
          | cons nv t => exact ih (i + 1) msg lvl kv r h k hshift

/-- Every even-index non-reserved element (not last) ends up bound in
the metadata map to exactly its following element, provided its rendered
key does not recur at a later even non-reserved index (later assignments
to the same key overwrite earlier ones, as for any Go map). -/
theorem procKV_lookup (l : List GoVal) : ∀ i msg lvl kv r,
    procKV i l msg lvl kv = .ok r →
    ∀ (j : Nat) (hj : j + 1 < l.length), (i + j) % 2 = 0 →
      sprintf (l.get ⟨j, Nat.lt_of_succ_lt hj⟩) ≠ "msg" →
      sprintf (l.get ⟨j, Nat.lt_of_succ_lt hj⟩) ≠ "level" →
      (∀ (j2 : Nat) (hj2 : j2 < l.length), j < j2 → (i + j2) % 2 = 0 →
        sprintf (l.get ⟨j2, hj2⟩) ≠ "msg" →
        sprintf (l.get ⟨j2, hj2⟩) ≠ "level" →
        sprintf (l.get ⟨j2, hj2⟩) ≠ sprintf (l.get ⟨j, Nat.lt_of_succ_lt hj⟩)) →
      kvLookup r.2.2 (sprintf (l.get ⟨j, Nat.lt_of_succ_lt hj⟩)) =
        some (l.get ⟨j + 1, hj⟩) := by
  induction l with
  | nil =>
    intro i msg lvl kv r h j hj
    simp at hj
  | cons v rest ih =>
    intro i msg lvl kv r h j hj hpar hm hl hdup
    cases j with
    | zero =>
      have hi : i % 2 = 0 := by omega
      cases rest with
      | nil => simp at hj
      | cons nv t =>
        have hm0 : sprintf v ≠ "msg" := hm
        have hl0 : sprintf v ≠ "level" := hl
        rw [procKV.eq_def] at h; simp only [] at h
        rw [if_neg hm0, if_neg hl0, if_pos hi] at h
        have hdupk : ∀ (j2 : Nat) (hx : j2 < (nv :: t).length),
            ((i + 1) + j2) % 2 = 0 →
            sprintf ((nv :: t).get ⟨j2, hx⟩) ≠ "msg" →
            sprintf ((nv :: t).get ⟨j2, hx⟩) ≠ "level" →
            sprintf ((nv :: t).get ⟨j2, hx⟩) ≠ sprintf v := by
          intro j2 hx hp2 hm2 hl2
          exact hdup (j2 + 1) (by simpa using hx) (by omega) (by omega) hm2 hl2
        have hpres := procKV_lookup_preserved (nv :: t) (i + 1) msg lvl
          (kvInsert kv (sprintf v) nv) r h (sprintf v) hdupk
        show kvLookup r.2.2 (sprintf v) = some nv
        rw [hpres, kvLookup_kvInsert_self]
    | succ j =>
      have hj2 : j + 1 < rest.length := by simpa using hj
      have hpar2 : ((i + 1) + j) % 2 = 0 := by omega
      have hdup2 : ∀ (j2 : Nat) (hx : j2 < rest.length), j < j2 →
          ((i + 1) + j2) % 2 = 0 →
          sprintf (rest.get ⟨j2, hx⟩) ≠ "msg" →
          sprintf (rest.get ⟨j2, hx⟩) ≠ "level" →
          sprintf (rest.get ⟨j2, hx⟩) ≠
            sprintf (rest.get ⟨j, Nat.lt_of_succ_lt hj2⟩) := by
        intro j2 hx hlt hp2 hm2 hl2
        exact hdup (j2 + 1) (by simpa using hx) (by omega) (by omega) hm2 hl2
      by_cases h1 : sprintf v = "msg"
      · rw [procKV.eq_def] at h; simp only [] at h; rw [if_pos h1] at h
        cases rest with
        | nil => simp at hj2
        | cons nv t =>
          cases nv with
          | vstr s => exact ih (i + 1) s lvl kv r h j hj2 hpar2 hm hl hdup2
          | vother rr => simp at h
          | vbad rr => simp at h
      · by_cases h2 : sprintf v = "level"
        · rw [procKV.eq_def] at h; simp only [] at h; rw [if_neg h1, if_pos h2] at h
          cases rest with
          | nil => simp at hj2
          | cons nv t =>
            exact ih (i + 1) msg (sprintf nv) kv r h j hj2 hpar2 hm hl hdup2
        · by_cases h3 : i % 2 = 0
          · rw [procKV.eq_def] at h; simp only [] at h
            rw [if_neg h1, if_neg h2, if_pos h3] at h
            cases rest with
            | nil => simp at hj2
            | cons nv t =>
              exact ih (i + 1) msg lvl (kvInsert kv (sprintf v) nv) r h
                j hj2 hpar2 hm hl hdup2
          · rw [procKV.eq_def] at h; simp only [] at h
            rw [if_neg h1, if_neg h2, if_neg h3] at h
            cases rest with
            | nil => simp at hj2
            | cons nv t =>
              exact ih (i + 1) msg lvl kv r h j hj2 hpar2 hm hl hdup2

/-- C8 counterexample: in the keyvals sequence k, msg, v, w the string
`msg` never occurs at a key (even) position, yet the loop selects `v`
as the message — the `switch` matches the rendering of EVERY element,
value positions included, so a reserved string at an odd position hijacks
the message instead of staying the value of the preceding key. -/
theorem c8_cex_reserved_matches_at_value_position :
    procKV 0 kvsEx "" "info" [] =
      .ok ("v", "info", [("k", GoVal.vstr "msg"), ("v", GoVal.vstr "w")])
    ∧ ∀ (j : Nat) (hj : j < kvsEx.length), j % 2 = 0 →
        sprintf (kvsEx.get ⟨j, hj⟩) ≠ "msg" := by
  constructor
  · rfl
  · decide

/-- C8 amended: for every keyvals sequence on which `Log` completes
without a runtime fault, the reserved strings `msg` and `level` select
the message and severity wherever they occur (any position, key or
value); every other even-position element is placed as a key with its
following value into the record's metadata mapping — its rendered key is
among the metadata keys, and whenever that key does not recur at a later
even non-reserved position (Go map assignments are last-write-wins) the
metadata binds it to exactly the following element; and the identical
sequence is forwarded to the next logger whether or not the backend is
enabled. -/
theorem c8_amended_reserved_anywhere (lg : Dnalog) (kvs : List GoVal)
    (nowNanos : Int) (res : LogResult)
    (h : Dnalog.Log lg kvs nowNanos = .ok res) :
    res.forwarded = (if lg.next then some kvs else none)
    ∧ ∀ ln, res.written = some ln →
        ln.line = (specMsg kvs).getD ""
        ∧ ln.level = (specLvl kvs).getD "info"
        ∧ ∀ (j : Nat) (hj : j + 1 < kvs.length), j % 2 = 0 →
            sprintf (kvs.get ⟨j, Nat.lt_of_succ_lt hj⟩) ≠ "msg" →
            sprintf (kvs.get ⟨j, Nat.lt_of_succ_lt hj⟩) ≠ "level" →
            sprintf (kvs.get ⟨j, Nat.lt_of_succ_lt hj⟩) ∈ kvKeys ln.meta
            ∧ ((∀ (j2 : Nat) (hj2 : j2 < kvs.length), j < j2 → j2 % 2 = 0 →
                  sprintf (kvs.get ⟨j2, hj2⟩) ≠ "msg" →
                  sprintf (kvs.get ⟨j2, hj2⟩) ≠ "level" →
                  sprintf (kvs.get ⟨j2, hj2⟩) ≠
                    sprintf (kvs.get ⟨j, Nat.lt_of_succ_lt hj⟩)) →
                kvLookup ln.meta
                    (sprintf (kvs.get ⟨j, Nat.lt_of_succ_lt hj⟩)) =
                  some (kvs.get ⟨j + 1, hj⟩)) := by
  unfold Dnalog.Log at h
  cases hc : lg.client with
  | none =>
    rw [hc] at h
    injection h with h
    subst h
    refine ⟨rfl, ?_⟩
    intro ln hln
    simp at hln
  | some c =>
    rw [hc] at h
    cases hp : procKV 0 kvs "" "info" [] with
    | error f =>
      rw [hp] at h
      simp at h
    | ok trip =>
      obtain ⟨m, lv, kv⟩ := trip
      rw [hp] at h
      injection h with h
      subst h
      refine ⟨rfl, ?_⟩
      intro ln hln
      injection hln with hln
      subst hln
      refine ⟨?_, ?_, ?_⟩
      · exact procKV_msg kvs 0 "" "info" [] (m, lv, kv) hp
      · exact procKV_lvl kvs 0 "" "info" [] (m, lv, kv) hp
      · intro j hj hpar hm hl
        refine ⟨?_, ?_⟩
        · exact procKV_keys_mem kvs 0 "" "info" [] (m, lv, kv) hp j hj
            (by omega) hm hl
        · intro hdup
          refine procKV_lookup kvs 0 "" "info" [] (m, lv, kv) hp j hj
            (by omega) hm hl ?_
          intro j2 hx hlt hp2 hm2 hl2
          exact hdup j2 hx hlt (by omega) hm2 hl2

/-- C8 amended witness: a concrete enabled Log call with `msg` at an odd
position, evaluated end to end, including the metadata binding of the
key `k` to its following value. -/
theorem c8_witness :
    Dnalog.Log dlEx kvsEx 0 = .ok resEx8
    ∧ resEx8.forwarded = some kvsEx
    ∧ kvLookup lnEx8.meta "k" = some (GoVal.vstr "msg") :=
  ⟨rfl, (c8_amended_reserved_anywhere dlEx kvsEx 0 resEx8 rfl).1,
    (((c8_amended_reserved_anywhere dlEx kvsEx 0 resEx8 rfl).2 lnEx8
        rfl).2.2 0 (by decide) (by decide) (by decide) (by decide)).2
      (by decide)⟩

end Logdna
